import Mathlib

/-
Verification of the terrain-image generator (src/src/gradient.rs,
src/src/generator.rs) against its natural-language specification.

Shallow embedding conventions:
* `f64` values are modelled as `ℚ`; the band limits, colors and all
  arithmetic in the source are exact decimal constants, so rational
  arithmetic mirrors the source expressions.  The one place where IEEE
  semantics matters is the division `dist_self_abs / den` in
  `lerp_color`: when `den = 0` the Rust expression is `0.0 / 0.0 = NaN`,
  and every subsequent arithmetic result is NaN, with `NaN as u8 = 0`.
  We model that by computing the factor as an `Option ℚ`, `none`
  standing for NaN.
* Rust panics are modelled as `none` of an `Option` result.
* `usize` arithmetic is `ℕ` (no overflow is reachable for the sizes
  involved; `TerrainKind::Undefined as usize` is `-1` cast to 64-bit,
  i.e. `2^64 - 1`).
* The unseeded per-pixel jitter `rand::thread_rng().gen_range(0..1000)`
  is modelled by an oracle `jit : ℕ → ℕ` giving the raw draw for each
  loop iteration; theorems quantify over the oracle.
* The Perlin noise primitive is external to the repository; it is
  modelled as an arbitrary function parameter `perlin : ℚ → ℚ → ℚ`,
  which captures exactly the property the spec relies on (a
  deterministic pure function of its inputs for a fixed seed).
-/

namespace ImageTerrainGen

/-- Octave scales, `SCALES` in src/src/gradient.rs line 1. -/
def SCALES : List ℚ := [1.0, 2.0, 4.0, 8.0, 16.0, 32.0, 64.0]

/-- Octave weights, `WEIGHTS` in src/src/gradient.rs line 2. -/
def WEIGHTS : List ℚ := [0.35, 0.2, 0.15, 0.075, 0.075, 0.025, 0.025]

/-- Terrain levels, enum `TerrainKind` in src/src/gradient.rs. -/
inductive TerrainKind where
  | Undefined
  | DeepWater
  | Water
  | ShallowWater
  | Shore
  | FlatLand
  | HighLand
  | Mountains
  | MountainTop
deriving DecidableEq

/-- Discriminant cast `kind as usize`: the enum assigns `Undefined = -1`
and `DeepWater = 0` onward, so casting `Undefined` to `usize` wraps to
`2^64 - 1`. -/
def TerrainKind.toIdx : TerrainKind → ℕ
  | .Undefined => 2 ^ 64 - 1
  | .DeepWater => 0
  | .Water => 1
  | .ShallowWater => 2
  | .Shore => 3
  | .FlatLand => 4
  | .HighLand => 5
  | .Mountains => 6
  | .MountainTop => 7

/-- Model of `TerrainKind::before` (src/src/gradient.rs lines 21-33),
case for case. -/
def TerrainKind.before : TerrainKind → TerrainKind
  | .Undefined => .Undefined
  | .DeepWater => .DeepWater
  | .Water => .DeepWater
  | .ShallowWater => .Water
  | .Shore => .Water
  | .FlatLand => .Shore
  | .HighLand => .FlatLand
  | .Mountains => .HighLand
  | .MountainTop => .Mountains

/-- Model of `TerrainKind::after` (src/src/gradient.rs lines 35-47). -/
def TerrainKind.after : TerrainKind → TerrainKind
  | .Undefined => .Undefined
  | .DeepWater => .Water
  | .Water => .ShallowWater
  | .ShallowWater => .Shore
  | .Shore => .FlatLand
  | .FlatLand => .HighLand
  | .HighLand => .Mountains
  | .Mountains => .MountainTop
  | .MountainTop => .MountainTop

/-- Model of `impl From<usize> for TerrainKind`
(src/src/gradient.rs lines 50-64). -/
def TerrainKind.fromNat : ℕ → TerrainKind
  | 0 => .DeepWater
  | 1 => .Water
  | 2 => .ShallowWater
  | 3 => .Shore
  | 4 => .FlatLand
  | 5 => .HighLand
  | 6 => .Mountains
  | 7 => .MountainTop
  | _ => .Undefined

/-- An RGB color, `image::Rgb<u8>`, as a triple of channel bytes. -/
def Rgb : Type := ℕ × ℕ × ℕ

instance : DecidableEq Rgb := instDecidableEqProd

/-- Model of `Iterator::position`: index of the first element
satisfying the predicate. -/
def positionIdx (p : α → Bool) : List α → Option ℕ
  | [] => none
  | a :: l => if p a then some 0 else (positionIdx p l).map (· + 1)

/-- Struct `Gradient` (src/src/gradient.rs lines 66-71). -/
structure Gradient where
  terrain_limits : List (ℚ × ℚ)
  terrain_centers : List ℚ
  colors : List Rgb

/-- Model of `Gradient::calc_centers` (src/src/gradient.rs lines
136-179): builds an 8-entry vector whose entry `k` is
`(limits[k][0] + limits[k][1]) / 2` for each of the eight terrain
kinds.  For the 8-entry tables the source uses this equals mapping the
center formula over the limits; a shorter input would make the source
index out of bounds (the claims only involve the default 8-entry
table). -/
def Gradient.calc_centers (terrain_limits : List (ℚ × ℚ)) : List ℚ :=
  (terrain_limits.take 8).map (fun lm => (lm.1 + lm.2) / 2)

/-- Model of `Gradient::new` (src/src/gradient.rs lines 75-82). -/
def Gradient.new (terrain_limits : List (ℚ × ℚ)) (colors : List Rgb) : Gradient :=
  { terrain_limits := terrain_limits
    terrain_centers := Gradient.calc_centers terrain_limits
    colors := colors }

/-- Model of `Gradient::get_terrain_kind` (src/src/gradient.rs lines
114-124): scan the limits for the first interval with
`height > min && height < max`; `none` models the panic branch. -/
def Gradient.get_terrain_kind (g : Gradient) (height : ℚ) : Option TerrainKind :=
  (positionIdx (fun lm => decide (height > lm.1) && decide (height < lm.2))
    g.terrain_limits).map TerrainKind.fromNat

/-- Rust `f64 as u8`: saturating cast, truncation toward zero for
in-range values (all values cast here are nonnegative). -/
def ratToU8 (q : ℚ) : ℕ :=
  if q < 0 then 0 else if 255 < q then 255 else (⌊q⌋).toNat

/-- Model of `Gradient::_lerp_colors` (src/src/gradient.rs lines
126-134).  `factor = none` models a NaN factor: then every channel
expression is NaN and `NaN as u8 = 0`, giving black. -/
def Gradient.lerp_colors (one : Rgb) (factor : Option ℚ) (other : Rgb) : Rgb :=
  match factor with
  | none => (0, 0, 0)
  | some f =>
    ( ratToU8 ((one.1 : ℚ) * f + (other.1 : ℚ) * (1 - f))
    , ratToU8 ((one.2.1 : ℚ) * f + (other.2.1 : ℚ) * (1 - f))
    , ratToU8 ((one.2.2 : ℚ) * f + (other.2.2 : ℚ) * (1 - f)) )

/-- Model of `Gradient::lerp_color` (src/src/gradient.rs lines 89-112).
Vector indexing that would panic is `none`; the unwrap of
`get_terrain_kind` propagates its `none`.  The factor divisions
`dist_self_abs / den` are NaN exactly when `den = 0` (then the
numerator is forced to be 0 as well), modelled by an `Option ℚ`
factor. -/
def Gradient.lerp_color (g : Gradient) (height : ℚ) : Option Rgb := do
  let kind ← g.get_terrain_kind height
  let kindBefore := kind.before
  let kindAfter := kind.after
  let color ← g.colors.get? kind.toIdx
  let colorBefore ← g.colors.get? kindBefore.toIdx
  let colorAfter ← g.colors.get? kindAfter.toIdx
  let centerSelf ← g.terrain_centers.get? kind.toIdx
  let centerBefore ← g.terrain_centers.get? kindBefore.toIdx
  let centerAfter ← g.terrain_centers.get? kindAfter.toIdx
  let distSelf := height - centerSelf
  let distSelfAbs := |distSelf|
  let distBefore := |height - centerBefore|
  let distAfter := |height - centerAfter|
  if distSelf < 0 then
    let den := distBefore + distSelfAbs
    let factor : Option ℚ := if den = 0 then none else some (distSelfAbs / den)
    pure (Gradient.lerp_colors colorBefore factor color)
  else
    let den := distAfter + distSelfAbs
    let factor : Option ℚ := if den = 0 then none else some (distSelfAbs / den)
    pure (Gradient.lerp_colors colorAfter factor color)

/-- Model of `impl Default for Gradient` (src/src/gradient.rs lines
182-207): the default 8-band table and colors. -/
def Gradient.default : Gradient :=
  Gradient.new
    [ (0.0, 0.4)
    , (0.4, 0.6)
    , (0.6, 0.63)
    , (0.63, 0.64)
    , (0.64, 0.8)
    , (0.8, 0.9)
    , (0.9, 0.98)
    , (0.98, 1.0) ]
    [ (0, 64, 106)
    , (0, 117, 119)
    , (180, 240, 251)
    , (194, 178, 128)
    , (72, 111, 56)
    , (111, 130, 70)
    , (79, 79, 79)
    , (253, 254, 255) ]

/-
Generator (src/src/generator.rs).  `Generator::generate` reads the
already-resolved scalar parameters out of the config (`width`,
`height`, `thread_count`, `base_height`, `noise_strength`); the model
takes them as arguments directly.  The Perlin primitive is an external
crate, abstracted as a function parameter.
-/

/-- Per-octave steps (src/src/generator.rs lines 29-34):
`steps[idx] = min(scale/width, scale/height)`. -/
def mkSteps (width height : ℕ) : List ℚ :=
  SCALES.map (fun scale => min (scale / (width : ℚ)) (scale / (height : ℚ)))

/-- Octave accumulation loop of `job` (src/src/generator.rs lines
79-84): starting from `0.0`, add `perlin(step*x, step*y) * weight` for
each layer.  The source indexes `steps[layer]` and `WEIGHTS[layer]`
for `layer < SCALES.len()`; since both lists have that length this is
a fold over their zip. -/
def fractalValue (perlin : ℚ → ℚ → ℚ) (steps : List ℚ) (x y : ℕ) : ℚ :=
  (steps.zip WEIGHTS).foldl
    (fun acc sw => acc + perlin (sw.1 * (x : ℚ)) (sw.1 * (y : ℚ)) * sw.2) 0

/-- Rust `f64::clamp(lo, hi)` for `lo ≤ hi`: values below `lo` go to
`lo`, above `hi` go to `hi`. -/
def clampQ (v lo hi : ℚ) : ℚ := max (min v hi) lo

/-- Height pipeline of one `job` iteration (src/src/generator.rs lines
74-97): decode `x = (start+idx) % width`, `y = (start+idx) / width`,
accumulate the octaves, add `0.5`, draw
`noise_value = gen_range(0..1000) as f64 / 100000.0` (the raw draw is
the oracle value `jitterDraw`), remap by the base height, add the
scaled noise, and clamp to `[0.0000001, 0.99999999]`. -/
def pixelHeight (perlin : ℚ → ℚ → ℚ) (steps : List ℚ) (width : ℕ)
    (baseHeight noiseStrength : ℚ) (jitterDraw : ℕ) (gIdx : ℕ) : ℚ :=
  let x := gIdx % width
  let y := gIdx / width
  let value := fractalValue perlin steps x y + 0.5
  let noiseValue := (jitterDraw : ℚ) / 100000
  let value := baseHeight + value * (1 - baseHeight) + noiseValue * noiseStrength
  clampQ value 0.0000001 0.99999999

/-- The three bytes one `job` iteration writes (src/src/generator.rs
lines 99-102): the channels of `gradient.lerp_color(value)`; `none`
models the panic inside `lerp_color`. -/
def pixelRGB (perlin : ℚ → ℚ → ℚ) (steps : List ℚ) (width : ℕ)
    (baseHeight noiseStrength : ℚ) (g : Gradient) (jitterDraw gIdx : ℕ) :
    Option (List ℕ) :=
  (Gradient.lerp_color g (pixelHeight perlin steps width baseHeight noiseStrength jitterDraw gIdx)).map
    (fun c => [c.1, c.2.1, c.2.2])

/-- Sequential pixel loop: run `f` at indices `i, i+1, ..., i+n-1` and
concatenate the produced byte triples, failing if any iteration
fails. -/
def runPixels (f : ℕ → Option (List ℕ)) : ℕ → ℕ → Option (List ℕ)
  | _, 0 => some []
  | i, n + 1 =>
    Option.bind (f i) fun b =>
      Option.bind (runPixels f (i + 1) n) fun rest => some (b ++ rest)

/-- Model of `job` (src/src/generator.rs lines 61-104): iterate local
indices `0 .. min(image.len()/3, amount)`; the chunk slice holds
`chunkPix` pixels; each iteration writes the bytes of global pixel
`start + idx` using the jitter oracle draw `jit idx`. -/
def job (perlin : ℚ → ℚ → ℚ) (steps : List ℚ) (width : ℕ)
    (baseHeight noiseStrength : ℚ) (g : Gradient)
    (chunkPix start amount : ℕ) (jit : ℕ → ℕ) : Option (List ℕ) :=
  runPixels
    (fun idx => pixelRGB perlin steps width baseHeight noiseStrength g (jit idx) (start + idx))
    0 (min chunkPix amount)

/-- Pixel counts of the chunks produced by
`image_slice.chunks_mut(area_size * 3)` on a buffer of
`total * 3` bytes (src/src/generator.rs line 41).  Every chunk byte
count is a multiple of 3 (`area_size * 3` divides into `total * 3`
leaving a final remainder `3 * (total mod area_size)`), so the byte
chunking is exactly 3 times this pixel chunking.  The `q = 0` case is
never used: `chunks_mut(0)` panics, which `generate` models before
chunking. -/
def chunkPixLens (q : ℕ) : ℕ → List ℕ
  | 0 => []
  | p + 1 =>
    if hq : q = 0 then []
    else if p + 1 ≤ q then [p + 1]
    else q :: chunkPixLens q (p + 1 - q)
decreasing_by simp_wf; omega

/-- Model of `Iterator::enumerate` starting at index `k`. -/
def enumChunks (k : ℕ) : List ℕ → List (ℕ × ℕ)
  | [] => []
  | l :: ls => (k, l) :: enumChunks (k + 1) ls

/-- Fan-out/fan-in over the enumerated chunks: each `(area, len)` pair
runs its job; the concatenation of the chunk outputs in order is the
final buffer (the workers write disjoint consecutive slices). -/
def collectChunks (F : ℕ → ℕ → Option (List ℕ)) : List (ℕ × ℕ) → Option (List ℕ)
  | [] => some []
  | al :: rest =>
    Option.bind (F al.1 al.2) fun b =>
      Option.bind (collectChunks F rest) fun r => some (b ++ r)

/-- Model of `Generator::generate` (src/src/generator.rs lines 17-58):
`area_size = (width * height) / thread_count`; the buffer is split by
`chunks_mut(area_size * 3)` and chunk `area` runs
`job(slice, area * area_size, area_size, ...)`.  `none` models a
panicking run (`chunks_mut(0)` when `area_size = 0`, or a
classification panic inside some job). -/
def generate (perlin : ℚ → ℚ → ℚ) (width height threadCount : ℕ)
    (baseHeight noiseStrength : ℚ) (jit : ℕ → ℕ → ℕ) : Option (List ℕ) :=
  let pixels := width * height
  let areaSize := pixels / threadCount
  let steps := mkSteps width height
  if areaSize = 0 then none
  else
    collectChunks
      (fun area len =>
        job perlin steps width baseHeight noiseStrength Gradient.default
          len (area * areaSize) areaSize (jit area))
      (enumChunks 0 (chunkPixLens areaSize pixels))

/-- Global pixel indices written by the workers, in order: chunk
`area` writes pixels `area * q + idx` for
`idx < min (chunk length) (amount)`. -/
def writtenPixels (q P : ℕ) : List ℕ :=
  (enumChunks 0 (chunkPixLens q P)).flatMap
    (fun al => (List.range (min al.2 q)).map (fun i => al.1 * q + i))

/-! Helper lemmas -/

/-- A found position is an index into the list. -/
theorem positionIdx_lt_length (p : α → Bool) :
    ∀ l : List α, ∀ i, positionIdx p l = some i → i < l.length := by
  intro l
  induction l with
  | nil => intro i h; simp [positionIdx] at h
  | cons a t ih =>
    intro i h
    simp only [positionIdx] at h
    by_cases hp : p a
    · simp [hp] at h
      simp only [List.length_cons]
      omega
    · simp [hp] at h
      obtain ⟨j, hj, hji⟩ := h
      have := ih j hj
      simp only [List.length_cons]
      omega

/-- Closed form of the chunk lengths: `P / q` full chunks of `q`
pixels followed by one remainder chunk of `P mod q` pixels when `q`
does not divide `P`. -/
theorem chunkPixLens_eq (q : ℕ) (hq : 0 < q) :
    ∀ P, chunkPixLens q P =
      List.replicate (P / q) q ++ (if P % q = 0 then [] else [P % q]) := by
  suffices h : ∀ n P, P ≤ n → chunkPixLens q P =
      List.replicate (P / q) q ++ (if P % q = 0 then [] else [P % q]) from
    fun P => h P P le_rfl
  intro n
  induction n with
  | zero =>
    intro P hP
    have : P = 0 := Nat.le_zero.mp hP
    subst this
    simp [chunkPixLens, Nat.zero_mod, Nat.zero_div]
  | succ n ih =>
    intro P hP
    match P with
    | 0 => simp [chunkPixLens, Nat.zero_mod, Nat.zero_div]
    | p + 1 =>
      rw [chunkPixLens]
      rw [dif_neg (Nat.pos_iff_ne_zero.mp hq)]
      by_cases hle : p + 1 ≤ q
      · rw [if_pos hle]
        rcases Nat.lt_or_ge (p + 1) q with hlt | hge
        · rw [Nat.div_eq_of_lt hlt, Nat.mod_eq_of_lt hlt]
          simp
        · have heq : p + 1 = q := Nat.le_antisymm hle hge
          rw [heq, Nat.div_self hq, Nat.mod_self]
          simp
      · rw [if_neg hle]
        push_neg at hle
        have hrec := ih (p + 1 - q) (by omega)
        rw [hrec]
        have hdiv : (p + 1) / q = (p + 1 - q) / q + 1 :=
          Nat.div_eq_sub_div hq hle.le
        have hmod : (p + 1) % q = (p + 1 - q) % q :=
          (Nat.mod_eq_sub_mod hle.le)
        rw [hdiv, hmod, List.replicate_succ]
        simp

/-- Sum of the chunk lengths is the total pixel count. -/
theorem chunkPixLens_sum (q : ℕ) (hq : 0 < q) (P : ℕ) :
    (chunkPixLens q P).sum = P := by
  rw [chunkPixLens_eq q hq]
  have hdm := Nat.div_add_mod P q
  rw [Nat.mul_comm] at hdm
  by_cases h : P % q = 0
  · rw [h, Nat.add_zero] at hdm
    simpa [h, List.sum_replicate, smul_eq_mul] using hdm
  · simpa [h, List.sum_replicate, smul_eq_mul] using hdm

/-- Every chunk length is at most `q` pixels. -/
theorem chunkPixLens_le (q : ℕ) (hq : 0 < q) (P : ℕ) :
    ∀ l ∈ chunkPixLens q P, l ≤ q := by
  rw [chunkPixLens_eq q hq]
  intro l hl
  rcases List.mem_append.mp hl with h | h
  · rw [List.eq_of_mem_replicate h]
  · rcases Nat.eq_zero_or_pos (P % q) with h0 | h0
    · simp [h0] at h
    · rw [if_neg (Nat.pos_iff_ne_zero.mp h0)] at h
      simp at h
      subst h
      exact (Nat.mod_lt _ hq).le

/-- Running a shifted pixel function from 0 is running the unshifted
function from the shift. -/
theorem runPixels_shift (g : ℕ → Option (List ℕ)) (s : ℕ) :
    ∀ n a, runPixels (fun i => g (s + i)) a n = runPixels g (s + a) n := by
  intro n
  induction n with
  | zero => intro a; rfl
  | succ n ih =>
    intro a
    show Option.bind (g (s + a)) _ = Option.bind (g (s + a)) _
    cases g (s + a) with
    | none => rfl
    | some b =>
      simp only [Option.some_bind]
      rw [ih (a + 1)]
      have : s + (a + 1) = s + a + 1 := by omega
      rw [this]

/-- Splitting a pixel run at an intermediate count. -/
theorem runPixels_append (g : ℕ → Option (List ℕ)) :
    ∀ m n s, runPixels g s (m + n) =
      Option.bind (runPixels g s m) fun b =>
        Option.bind (runPixels g (s + m) n) fun r => some (b ++ r) := by
  intro m
  induction m with
  | zero =>
    intro n s
    simp only [Nat.zero_add, Nat.add_zero, runPixels, Option.some_bind]
    cases runPixels g s n with
    | none => rfl
    | some r => simp
  | succ m ih =>
    intro n s
    have hmn : m + 1 + n = (m + n) + 1 := by omega
    rw [hmn]
    show Option.bind (g s) _ = Option.bind (Option.bind (g s) _) _
    cases g s with
    | none => rfl
    | some b =>
      simp only [Option.some_bind]
      rw [ih n (s + 1)]
      have hs : s + 1 + m = s + (m + 1) := by omega
      rw [hs]
      cases runPixels g (s + 1) m with
      | none => rfl
      | some b2 =>
        simp only [Option.some_bind]
        cases runPixels g (s + (m + 1)) n with
        | none => rfl
        | some r => simp

/-- Concatenating the per-chunk runs over the enumerated chunk list is
one global run over all pixels: chunk `area` covers global pixels
`area * q .. area * q + len`, the chunks are consecutive and
disjoint. -/
theorem collectChunks_runPixels (g : ℕ → Option (List ℕ)) (q : ℕ) (hq : 0 < q) :
    ∀ P k, collectChunks (fun a l => runPixels g (a * q) (min l q))
        (enumChunks k (chunkPixLens q P)) = runPixels g (k * q) P := by
  suffices h : ∀ n P k, P ≤ n →
      collectChunks (fun a l => runPixels g (a * q) (min l q))
        (enumChunks k (chunkPixLens q P)) = runPixels g (k * q) P from
    fun P k => h P P k le_rfl
  intro n
  induction n with
  | zero =>
    intro P k hP
    have : P = 0 := Nat.le_zero.mp hP
    subst this
    simp [chunkPixLens, enumChunks, collectChunks, runPixels]
  | succ n ih =>
    intro P k hP
    match P with
    | 0 => simp [chunkPixLens, enumChunks, collectChunks, runPixels]
    | p + 1 =>
      rw [chunkPixLens]
      rw [dif_neg (Nat.pos_iff_ne_zero.mp hq)]
      by_cases hle : p + 1 ≤ q
      · rw [if_pos hle]
        show Option.bind (runPixels g (k * q) (min (p + 1) q)) _ = _
        rw [Nat.min_eq_left hle]
        cases runPixels g (k * q) (p + 1) with
        | none => rfl
        | some b => simp [collectChunks]
      · rw [if_neg hle]
        push_neg at hle
        show Option.bind (runPixels g (k * q) (min q q)) _ = _
        rw [Nat.min_self]
        have hsplit : p + 1 = q + (p + 1 - q) := by omega
        conv_rhs => rw [hsplit, runPixels_append]
        have hkq : k * q + q = (k + 1) * q := by ring
        rw [hkq]
        rw [ih (p + 1 - q) (k + 1) (by omega)]

/-- With `noise_strength = 0` the jitter term vanishes: the pixel
height does not depend on the jitter draw. -/
theorem pixelHeight_noise_zero (perlin : ℚ → ℚ → ℚ) (steps : List ℚ) (width : ℕ)
    (baseHeight : ℚ) (j j2 gIdx : ℕ) :
    pixelHeight perlin steps width baseHeight 0 j gIdx =
      pixelHeight perlin steps width baseHeight 0 j2 gIdx := by
  simp [pixelHeight]

/-- With `noise_strength = 0` the written bytes do not depend on the
jitter draw. -/
theorem pixelRGB_noise_zero (perlin : ℚ → ℚ → ℚ) (steps : List ℚ) (width : ℕ)
    (baseHeight : ℚ) (g : Gradient) (j j2 gIdx : ℕ) :
    pixelRGB perlin steps width baseHeight 0 g j gIdx =
      pixelRGB perlin steps width baseHeight 0 g j2 gIdx := by
  unfold pixelRGB
  rw [pixelHeight_noise_zero perlin steps width baseHeight j j2 gIdx]

/-- With `noise_strength = 0`, any valid thread count produces the
same single global pixel run. -/
theorem generate_noise_zero_eq_global_run (perlin : ℚ → ℚ → ℚ)
    (width height t : ℕ) (baseHeight : ℚ) (jit : ℕ → ℕ → ℕ)
    (ht : 1 ≤ t) (htP : t ≤ width * height) :
    generate perlin width height t baseHeight 0 jit =
      runPixels
        (fun gIdx =>
          pixelRGB perlin (mkSteps width height) width baseHeight 0 Gradient.default 0 gIdx)
        0 (width * height) := by
  have hq : 0 < width * height / t := Nat.div_pos htP ht
  unfold generate
  simp only []
  rw [if_neg (Nat.pos_iff_ne_zero.mp hq)]
  have hjob : (fun area len =>
      job perlin (mkSteps width height) width baseHeight 0 Gradient.default
        len (area * (width * height / t)) (width * height / t) (jit area)) =
      (fun a l =>
        runPixels
          (fun gIdx =>
            pixelRGB perlin (mkSteps width height) width baseHeight 0 Gradient.default 0 gIdx)
          (a * (width * height / t)) (min l (width * height / t))) := by
    funext area len
    unfold job
    have hfn : (fun idx =>
        pixelRGB perlin (mkSteps width height) width baseHeight 0 Gradient.default
          (jit area idx) (area * (width * height / t) + idx)) =
        (fun idx =>
          pixelRGB perlin (mkSteps width height) width baseHeight 0 Gradient.default 0
            (area * (width * height / t) + idx)) := by
      funext idx
      exact pixelRGB_noise_zero _ _ _ _ _ _ _ _
    rw [hfn]
    rw [runPixels_shift
      (fun gIdx =>
        pixelRGB perlin (mkSteps width height) width baseHeight 0 Gradient.default 0 gIdx)
      (area * (width * height / t)) (min len (width * height / t)) 0]
    rw [Nat.add_zero]
  rw [hjob]
  rw [collectChunks_runPixels _ _ hq (width * height) 0]
  rw [Nat.zero_mul]

/-- The per-chunk written pixel index lists concatenate to the
contiguous global index range: chunk `area` writes global indices
`area * q .. area * q + len`, consecutively and without overlap. -/
theorem chunk_indices_flat (q : ℕ) (hq : 0 < q) :
    ∀ P k, (enumChunks k (chunkPixLens q P)).flatMap
        (fun al => (List.range (min al.2 q)).map (fun i => al.1 * q + i)) =
      List.range' (k * q) P := by
  suffices h : ∀ n P k, P ≤ n →
      (enumChunks k (chunkPixLens q P)).flatMap
        (fun al => (List.range (min al.2 q)).map (fun i => al.1 * q + i)) =
      List.range' (k * q) P from
    fun P k => h P P k le_rfl
  intro n
  induction n with
  | zero =>
    intro P k hP
    have : P = 0 := Nat.le_zero.mp hP
    subst this
    simp [chunkPixLens, enumChunks]
  | succ n ih =>
    intro P k hP
    match P with
    | 0 => simp [chunkPixLens, enumChunks]
    | p + 1 =>
      rw [chunkPixLens]
      rw [dif_neg (Nat.pos_iff_ne_zero.mp hq)]
      by_cases hle : p + 1 ≤ q
      · rw [if_pos hle]
        simp only [enumChunks, List.flatMap_cons, List.flatMap_nil, List.append_nil]
        rw [Nat.min_eq_left hle]
        rw [List.range'_eq_map_range]
      · rw [if_neg hle]
        push_neg at hle
        simp only [enumChunks, List.flatMap_cons]
        rw [Nat.min_self]
        rw [ih (p + 1 - q) (k + 1) (by omega)]
        have hsplit : p + 1 = (p + 1 - q) + q := by omega
        conv_rhs => rw [hsplit]
        rw [← List.range'_append_1 (k * q) q (p + 1 - q)]
        have hkq : k * q + q = (k + 1) * q := by ring
        rw [hkq, List.range'_eq_map_range, List.range'_eq_map_range]

/-- Every successful pixel produces exactly three bytes. -/
theorem pixelRGB_length (perlin : ℚ → ℚ → ℚ) (steps : List ℚ) (width : ℕ)
    (baseHeight noiseStrength : ℚ) (g : Gradient) (j gIdx : ℕ) (b : List ℕ)
    (h : pixelRGB perlin steps width baseHeight noiseStrength g j gIdx = some b) :
    b.length = 3 := by
  unfold pixelRGB at h
  cases hc : Gradient.lerp_color g
      (pixelHeight perlin steps width baseHeight noiseStrength j gIdx) with
  | none => rw [hc] at h; simp at h
  | some c =>
    rw [hc] at h
    simp only [Option.map_some'] at h
    have hb := Option.some.inj h
    rw [← hb]
    rfl

/-- A successful pixel run over `n` indices yields `3 * n` bytes. -/
theorem runPixels_length (f : ℕ → Option (List ℕ))
    (hf : ∀ i b, f i = some b → b.length = 3) :
    ∀ n s out, runPixels f s n = some out → out.length = 3 * n := by
  intro n
  induction n with
  | zero =>
    intro s out h
    have : ([] : List ℕ) = out := Option.some.inj h
    rw [← this]
    rfl
  | succ n ih =>
    intro s out h
    simp only [runPixels] at h
    cases hb : f s with
    | none => rw [hb] at h; simp at h
    | some b =>
      rw [hb] at h
      simp only [Option.some_bind] at h
      cases hr : runPixels f (s + 1) n with
      | none => rw [hr] at h; simp at h
      | some r =>
        rw [hr] at h
        simp only [Option.some_bind] at h
        have hout := Option.some.inj h
        rw [← hout, List.length_append, hf s b hb, ih (s + 1) r hr]
        ring

/-- A successful fan-out run yields the sum of the per-chunk byte
counts. -/
theorem collectChunks_length (q : ℕ) (F : ℕ → ℕ → Option (List ℕ))
    (hF : ∀ a l out, F a l = some out → out.length = 3 * min l q) :
    ∀ L out, collectChunks F L = some out →
      out.length = 3 * (L.map (fun al => min al.2 q)).sum := by
  intro L
  induction L with
  | nil =>
    intro out h
    have : ([] : List ℕ) = out := Option.some.inj h
    rw [← this]
    rfl
  | cons al rest ih =>
    intro out h
    simp only [collectChunks] at h
    cases hb : F al.1 al.2 with
    | none => rw [hb] at h; simp at h
    | some b =>
      rw [hb] at h
      simp only [Option.some_bind] at h
      cases hr : collectChunks F rest with
      | none => rw [hr] at h; simp at h
      | some r =>
        rw [hr] at h
        simp only [Option.some_bind] at h
        have hout := Option.some.inj h
        rw [← hout, List.length_append, hF al.1 al.2 b hb, ih r hr]
        simp [Nat.mul_add]

/-- Enumeration does not change the second components. -/
theorem enumChunks_map_snd (f : ℕ → α) :
    ∀ (ls : List ℕ) (k : ℕ), (enumChunks k ls).map (fun al => f al.2) = ls.map f := by
  intro ls
  induction ls with
  | nil => intro k; rfl
  | cons l ls ih =>
    intro k
    show f l :: (enumChunks (k + 1) ls).map (fun al => f al.2) = f l :: ls.map f
    rw [ih (k + 1)]

/-- Case analysis on the source clamp `clamp(0.0000001, 0.99999999)`:
its output always lies strictly inside `(0, 1)`, and for every input
there is a single epsilon strictly inside `(0, 1/2)` whose symmetric
clamp `[eps, 1 - eps]` produces the same output (`eps = 1e-7` below the
lower bound, `eps = 1e-8` otherwise). -/
theorem clampQ_cases (v : ℚ) :
    (∃ ε : ℚ, 0 < ε ∧ ε < 1 / 2 ∧
      clampQ v 0.0000001 0.99999999 = clampQ v ε (1 - ε)) ∧
    0 < clampQ v 0.0000001 0.99999999 ∧
    clampQ v 0.0000001 0.99999999 < 1 := by
  rcases lt_or_le v 0.0000001 with hv | hv
  · have hueq : clampQ v 0.0000001 0.99999999 = 0.0000001 := by
      unfold clampQ
      rw [min_eq_left (by linarith), max_eq_right hv.le]
    refine ⟨⟨0.0000001, by norm_num, by norm_num, ?_⟩, ?_, ?_⟩
    · rw [hueq]
      unfold clampQ
      rw [min_eq_left (by linarith), max_eq_right hv.le]
    · rw [hueq]; norm_num
    · rw [hueq]; norm_num
  · rcases le_or_lt v 0.99999999 with hv2 | hv2
    · have hueq : clampQ v 0.0000001 0.99999999 = v := by
        unfold clampQ
        rw [min_eq_left hv2, max_eq_left hv]
      refine ⟨⟨0.00000001, by norm_num, by norm_num, ?_⟩, ?_, ?_⟩
      · rw [hueq]
        unfold clampQ
        rw [min_eq_left (by linarith), max_eq_left (by linarith)]
      · rw [hueq]; linarith
      · rw [hueq]; linarith
    · have hueq : clampQ v 0.0000001 0.99999999 = 0.99999999 := by
        unfold clampQ
        rw [min_eq_right hv2.le, max_eq_left (by norm_num)]
      refine ⟨⟨0.00000001, by norm_num, by norm_num, ?_⟩, ?_, ?_⟩
      · rw [hueq]
        unfold clampQ
        rw [min_eq_right (by linarith), max_eq_left (by norm_num)]
        norm_num
      · rw [hueq]; norm_num
      · rw [hueq]; norm_num

/-! Claim theorems -/

/-- C1 counterexample: the height `0.4` lies inside the clamped range
`[1e-7, 1 - 1e-7]`, yet the default band table classifies it to no
band (every interval is strictly open, and `0.4` is the shared
endpoint of the DeepWater and Water intervals), so `get_terrain_kind`
reaches its panic branch there. -/
theorem get_terrain_kind_gap_at_boundary :
    (0.0000001 ≤ (0.4 : ℚ) ∧ (0.4 : ℚ) ≤ 1 - 0.0000001) ∧
    Gradient.default.get_terrain_kind 0.4 = none := by
  refine ⟨by norm_num, ?_⟩
  norm_num [Gradient.get_terrain_kind, Gradient.default, Gradient.new, positionIdx]

/-- C1 (amended): every height in the clamped range `[1e-7, 1 - 1e-7]`
that is not one of the seven interior band boundaries
`0.4, 0.6, 0.63, 0.64, 0.8, 0.9, 0.98` is classified to some band by
the default table, so the panic branch is unreachable for such
heights. -/
theorem get_terrain_kind_default_total (x : ℚ)
    (hlo : 0.0000001 ≤ x) (hhi : x ≤ 1 - 0.0000001)
    (hb1 : x ≠ 0.4) (hb2 : x ≠ 0.6) (hb3 : x ≠ 0.63) (hb4 : x ≠ 0.64)
    (hb5 : x ≠ 0.8) (hb6 : x ≠ 0.9) (hb7 : x ≠ 0.98) :
    (Gradient.default.get_terrain_kind x).isSome := by
  have hx0 : (0.0 : ℚ) < x := by nlinarith
  have hx1 : x < (1.0 : ℚ) := by nlinarith
  rcases lt_trichotomy x 0.4 with h1 | h1 | h1
  · simp [Gradient.get_terrain_kind, Gradient.default, Gradient.new, positionIdx, hx0, h1]
  · exact absurd h1 hb1
  have h1n : ¬ (x < (0.4 : ℚ)) := not_lt.mpr h1.le
  rcases lt_trichotomy x 0.6 with h2 | h2 | h2
  · simp [Gradient.get_terrain_kind, Gradient.default, Gradient.new, positionIdx, hx0, h1, h1n, h2]
  · exact absurd h2 hb2
  have h2n : ¬ (x < (0.6 : ℚ)) := not_lt.mpr h2.le
  rcases lt_trichotomy x 0.63 with h3 | h3 | h3
  · simp [Gradient.get_terrain_kind, Gradient.default, Gradient.new, positionIdx, hx0, h1, h1n, h2,
      h2n, h3]
  · exact absurd h3 hb3
  have h3n : ¬ (x < (0.63 : ℚ)) := not_lt.mpr h3.le
  rcases lt_trichotomy x 0.64 with h4 | h4 | h4
  · simp [Gradient.get_terrain_kind, Gradient.default, Gradient.new, positionIdx, hx0, h1, h1n, h2,
      h2n, h3, h3n, h4]
  · exact absurd h4 hb4
  have h4n : ¬ (x < (0.64 : ℚ)) := not_lt.mpr h4.le
  rcases lt_trichotomy x 0.8 with h5 | h5 | h5
  · simp [Gradient.get_terrain_kind, Gradient.default, Gradient.new, positionIdx, hx0, h1, h1n, h2,
      h2n, h3, h3n, h4, h4n, h5]
  · exact absurd h5 hb5
  have h5n : ¬ (x < (0.8 : ℚ)) := not_lt.mpr h5.le
  rcases lt_trichotomy x 0.9 with h6 | h6 | h6
  · simp [Gradient.get_terrain_kind, Gradient.default, Gradient.new, positionIdx, hx0, h1, h1n, h2,
      h2n, h3, h3n, h4, h4n, h5, h5n, h6]
  · exact absurd h6 hb6
  have h6n : ¬ (x < (0.9 : ℚ)) := not_lt.mpr h6.le
  rcases lt_trichotomy x 0.98 with h7 | h7 | h7
  · simp [Gradient.get_terrain_kind, Gradient.default, Gradient.new, positionIdx, hx0, h1, h1n, h2,
      h2n, h3, h3n, h4, h4n, h5, h5n, h6, h6n, h7]
  · exact absurd h7 hb7
  have h7n : ¬ (x < (0.98 : ℚ)) := not_lt.mpr h7.le
  simp [Gradient.get_terrain_kind, Gradient.default, Gradient.new, positionIdx, hx0, h1, h1n, h2,
    h2n, h3, h3n, h4, h4n, h5, h5n, h6, h6n, h7, h7n, hx1]

/-- C1 witness: the amended theorem applied at the concrete height
`0.5`. -/
theorem get_terrain_kind_default_total_witness :
    (0.0000001 ≤ (0.5 : ℚ) ∧ (0.5 : ℚ) ≤ 1 - 0.0000001) ∧
    (Gradient.default.get_terrain_kind 0.5).isSome :=
  ⟨by norm_num,
    get_terrain_kind_default_total 0.5 (by norm_num) (by norm_num) (by norm_num) (by norm_num)
      (by norm_num) (by norm_num) (by norm_num) (by norm_num) (by norm_num)⟩

/-- C2: evaluating the code at the failing input: `before(Shore)`
returns `Water`, skipping the immediately preceding band
`ShallowWater`; every other band follows the adjacent-band rule, so
this is the single deviating case. -/
theorem before_shore_skips_shallow_water :
    TerrainKind.before TerrainKind.Shore = TerrainKind.Water ∧
    TerrainKind.before TerrainKind.Shore ≠ TerrainKind.ShallowWater := by
  constructor <;> decide

/-- C4 counterexample: with `width = 3`, `height = 1`,
`thread_count = 2` the pixel count is 3 and `area_size = 1`, and
`chunks_mut` yields three chunks of one pixel each, not two chunks of
sizes `1` and `2`: the remainder becomes extra chunks instead of being
absorbed by the last of `thread_count` chunks. -/
theorem chunk_count_exceeds_thread_count :
    chunkPixLens ((3 * 1) / 2) (3 * 1) = [1, 1, 1] ∧
    (chunkPixLens ((3 * 1) / 2) (3 * 1)).length ≠ 2 := by
  norm_num [chunkPixLens]

/-- C3: with `noise_strength = 0` the jitter term is exactly zero and
each pixel depends only on its global linear index, so two runs with
the same thread count (and fresh, arbitrary jitter draws) are
byte-identical, and so are runs with different thread counts: the
output is one global pixel run independent of chunk boundaries. -/
theorem generate_noise_zero_deterministic (perlin : ℚ → ℚ → ℚ)
    (width height t1 t2 : ℕ) (baseHeight : ℚ) (jit1 jit2 : ℕ → ℕ → ℕ)
    (ht1 : 1 ≤ t1) (ht1P : t1 ≤ width * height)
    (ht2 : 1 ≤ t2) (ht2P : t2 ≤ width * height) :
    generate perlin width height t1 baseHeight 0 jit1 =
      generate perlin width height t2 baseHeight 0 jit2 := by
  rw [generate_noise_zero_eq_global_run perlin width height t1 baseHeight jit1 ht1 ht1P]
  rw [generate_noise_zero_eq_global_run perlin width height t2 baseHeight jit2 ht2 ht2P]

/-- C3 witness: a 2 by 2 image, a zero Perlin oracle and two unrelated
jitter oracles, with one thread against two threads. -/
theorem generate_noise_zero_deterministic_witness :
    ((1 ≤ 1 ∧ 1 ≤ 2 * 2) ∧ (1 ≤ 2 ∧ 2 ≤ 2 * 2)) ∧
    generate (fun _ _ => 0) 2 2 1 0 0 (fun _ i => 3 + i) =
      generate (fun _ _ => 0) 2 2 2 0 0 (fun a i => 7 * a + i) :=
  ⟨⟨⟨by decide, by decide⟩, ⟨by decide, by decide⟩⟩,
    generate_noise_zero_deterministic (fun _ _ => 0) 2 2 1 2 0
      (fun _ i => 3 + i) (fun a i => 7 * a + i)
      (by decide) (by decide) (by decide) (by decide)⟩

/-- C4 (amended): for `1 ≤ thread_count ≤ P` pixels and
`q = floor(P / thread_count)`, `generate` splits the buffer into
`ceil(P / q)` contiguous row-major chunks: `P / q` chunks of exactly
`q` pixels followed, when `q` does not divide `P`, by one extra
remainder chunk of `P mod q` pixels (no chunk panics and no chunk is
oversized); the chunk count equals `thread_count` exactly when
`thread_count` divides `P`. -/
theorem generate_chunk_partition (P t : ℕ) (h1 : 1 ≤ t) (h2 : t ≤ P) :
    chunkPixLens (P / t) P =
      List.replicate (P / (P / t)) (P / t) ++
        (if P % (P / t) = 0 then [] else [P % (P / t)]) ∧
    (t ∣ P → (chunkPixLens (P / t) P).length = t) := by
  have hq : 0 < P / t := Nat.div_pos h2 h1
  refine ⟨chunkPixLens_eq _ hq P, ?_⟩
  intro hdvd
  rw [chunkPixLens_eq _ hq P]
  obtain ⟨c, hc⟩ := hdvd
  have hc0 : 0 < c := by
    rcases Nat.eq_zero_or_pos c with h0 | h0
    · subst h0; omega
    · exact h0
  have hqc : P / t = c := by
    rw [hc]; exact Nat.mul_div_cancel_left c h1
  have hPc : P / c = t := by
    rw [hc]; exact Nat.mul_div_cancel t hc0
  have hmod : P % c = 0 := by
    rw [hc]; exact Nat.mul_mod_left t c
  rw [hqc, hPc, hmod]
  simp

/-- C4 witness: the amended theorem at `P = 6` pixels and
`thread_count = 2`, an evenly dividing configuration: two chunks of
three pixels. -/
theorem generate_chunk_partition_witness :
    ((1 ≤ 2 ∧ 2 ≤ 6) ∧
      chunkPixLens (6 / 2) 6 =
        List.replicate (6 / (6 / 2)) (6 / 2) ++
          (if 6 % (6 / 2) = 0 then [] else [6 % (6 / 2)]) ∧
      (2 ∣ 6 → (chunkPixLens (6 / 2) 6).length = 2)) :=
  ⟨⟨by decide, by decide⟩, generate_chunk_partition 6 2 (by decide) (by decide)⟩

/-- C5: the chunks handed to the workers are pairwise disjoint and
cover the whole buffer, each worker writes every pixel of its chunk,
and consequently a successful `generate` run produces exactly
`width * height * 3` bytes with every byte written by exactly one
worker: the concatenated per-chunk written-index lists equal, as a
list (so with multiplicity one and in order), the full range of
global pixel indices. -/
theorem generate_writes_every_byte_once (perlin : ℚ → ℚ → ℚ)
    (width height t : ℕ) (baseHeight noiseStrength : ℚ) (jit : ℕ → ℕ → ℕ)
    (ht : 1 ≤ t) (htP : t ≤ width * height) :
    writtenPixels (width * height / t) (width * height) =
      List.range (width * height) ∧
    ∀ out, generate perlin width height t baseHeight noiseStrength jit = some out →
      out.length = 3 * (width * height) := by
  have hq : 0 < width * height / t := Nat.div_pos htP ht
  constructor
  · unfold writtenPixels
    rw [chunk_indices_flat _ hq (width * height) 0, Nat.zero_mul,
      ← List.range_eq_range']
  · intro out h
    unfold generate at h
    rw [if_neg (Nat.pos_iff_ne_zero.mp hq)] at h
    have hF : ∀ a l out',
        job perlin (mkSteps width height) width baseHeight noiseStrength
          Gradient.default l (a * (width * height / t)) (width * height / t)
          (jit a) = some out' →
        out'.length = 3 * min l (width * height / t) := by
      intro a l out' hj
      unfold job at hj
      exact runPixels_length _
        (fun i b hb => pixelRGB_length _ _ _ _ _ _ _ _ _ hb) _ _ _ hj
    have hlen := collectChunks_length (width * height / t) _ hF _ _ h
    rw [enumChunks_map_snd (fun l => min l (width * height / t))
      (chunkPixLens (width * height / t) (width * height)) 0] at hlen
    have hmap : (chunkPixLens (width * height / t) (width * height)).map
        (fun l => min l (width * height / t)) =
        chunkPixLens (width * height / t) (width * height) := by
      have hle := chunkPixLens_le _ hq (width * height)
      rw [List.map_congr_left (fun a ha => Nat.min_eq_left (hle a ha))]
      exact List.map_id _
    rw [hmap, chunkPixLens_sum _ hq] at hlen
    exact hlen

/-- C5 witness: the theorem at `width = 3, height = 1,
thread_count = 2` (a non-dividing configuration: chunk sizes
`[1, 1, 1]`), projected to the written-index coverage conjunct. -/
theorem generate_writes_every_byte_once_witness :
    (1 ≤ 2 ∧ 2 ≤ 3 * 1) ∧
    writtenPixels (3 * 1 / 2) (3 * 1) = List.range (3 * 1) :=
  ⟨⟨by decide, by decide⟩,
    (generate_writes_every_byte_once (fun _ _ => 0) 3 1 2 0 0 (fun _ _ => 0)
      (by decide) (by decide)).1⟩

/-- C6: evaluating the code at the failing input: at the exact center
`0.99` of the MountainTop band, `after(MountainTop) = MountainTop`, so
both distances are zero and the interpolation factor is `0.0 / 0.0`
(NaN); every channel then casts to `0`, producing black instead of the
band color `(253, 254, 255)`. -/
theorem lerp_color_mountaintop_center_black :
    Gradient.default.terrain_centers.get? (TerrainKind.toIdx TerrainKind.MountainTop) =
      some 0.99 ∧
    Gradient.lerp_color Gradient.default 0.99 = some (0, 0, 0) ∧
    Gradient.default.colors.get? (TerrainKind.toIdx TerrainKind.MountainTop) =
      some (253, 254, 255) := by
  refine ⟨?_, ?_, ?_⟩
  · norm_num [Gradient.default, Gradient.new, Gradient.calc_centers, TerrainKind.toIdx]
  · norm_num [Gradient.lerp_color, Gradient.get_terrain_kind, Gradient.default, Gradient.new,
      Gradient.calc_centers, positionIdx, TerrainKind.fromNat, TerrainKind.before,
      TerrainKind.after, TerrainKind.toIdx, Option.bind, Gradient.lerp_colors, ratToU8, abs]
  · norm_num [Gradient.default, Gradient.new, TerrainKind.toIdx]

/-- C7: the height handed to `lerp_color` for a pixel is exactly
`clamp(base_height + (fractal_sum + 0.5) * (1 - base_height) +
jitter * noise_strength)` with clamp bounds `1e-7` and `1 - 1e-8`,
where the jitter `draw / 100000` for a raw draw in `0..1000` lies in
`[0, 0.01)`; for some epsilon strictly inside `(0, 1/2)` this equals
the symmetric clamp to `[eps, 1 - eps]`, and for every possible jitter
draw the clamped value is strictly between 0 and 1. -/
theorem pixelHeight_clamped (perlin : ℚ → ℚ → ℚ) (steps : List ℚ) (width : ℕ)
    (baseHeight noiseStrength : ℚ) (j gIdx : ℕ) (hj : j < 1000) :
    (0 ≤ (j : ℚ) / 100000 ∧ (j : ℚ) / 100000 < 0.01) ∧
    pixelHeight perlin steps width baseHeight noiseStrength j gIdx =
      clampQ
        (baseHeight +
          (fractalValue perlin steps (gIdx % width) (gIdx / width) + 0.5) *
            (1 - baseHeight) +
          (j : ℚ) / 100000 * noiseStrength)
        0.0000001 0.99999999 ∧
    (∃ ε : ℚ, 0 < ε ∧ ε < 1 / 2 ∧
      pixelHeight perlin steps width baseHeight noiseStrength j gIdx =
        clampQ
          (baseHeight +
            (fractalValue perlin steps (gIdx % width) (gIdx / width) + 0.5) *
              (1 - baseHeight) +
            (j : ℚ) / 100000 * noiseStrength)
          ε (1 - ε)) ∧
    0 < pixelHeight perlin steps width baseHeight noiseStrength j gIdx ∧
    pixelHeight perlin steps width baseHeight noiseStrength j gIdx < 1 := by
  have hkey := clampQ_cases
    (baseHeight +
      (fractalValue perlin steps (gIdx % width) (gIdx / width) + 0.5) *
        (1 - baseHeight) +
      (j : ℚ) / 100000 * noiseStrength)
  have heq : pixelHeight perlin steps width baseHeight noiseStrength j gIdx =
      clampQ
        (baseHeight +
          (fractalValue perlin steps (gIdx % width) (gIdx / width) + 0.5) *
            (1 - baseHeight) +
          (j : ℚ) / 100000 * noiseStrength)
        0.0000001 0.99999999 := rfl
  refine ⟨⟨by positivity, ?_⟩, heq, ?_, ?_, ?_⟩
  · rw [div_lt_iff₀ (by norm_num)]
    have hq : (j : ℚ) < 1000 := by exact_mod_cast hj
    linarith
  · rw [heq]; exact hkey.1
  · rw [heq]; exact hkey.2.1
  · rw [heq]; exact hkey.2.2

/-- C7 witness: the theorem applied with a zero Perlin oracle, an
empty octave list, jitter draw 500 and noise strength 1. -/
theorem pixelHeight_clamped_witness :
    500 < 1000 ∧ 0 < pixelHeight (fun _ _ => 0) [] 1 0 1 500 0 :=
  ⟨by decide,
    (pixelHeight_clamped (fun _ _ => 0) [] 1 0 1 500 0 (by decide)).2.2.2.1⟩

/-- C8 counterexample: the octave scales are not strictly decreasing
(the very first pair already increases: `SCALES[0] = 1 < 2 =
SCALES[1]`), and the octave weights sum to `0.9`, not `1`. -/
theorem scales_not_decreasing :
    ¬ List.Pairwise (fun a b : ℚ => b < a) SCALES ∧ WEIGHTS.sum = 0.9 := by
  constructor
  · intro h
    have h2 := (List.pairwise_cons.mp h).1 2.0 (by norm_num)
    norm_num at h2
  · norm_num [WEIGHTS]

/-- C8 (amended): `SCALES` and `WEIGHTS` have equal length, the scales
are strictly increasing, and the weights sum to exactly `0.9`. -/
theorem octave_tables_shape :
    SCALES.length = WEIGHTS.length ∧
    List.Pairwise (fun a b : ℚ => a < b) SCALES ∧
    WEIGHTS.sum = 0.9 := by
  refine ⟨by decide, ?_, by norm_num [WEIGHTS]⟩
  norm_num [SCALES, List.pairwise_cons]

/-- C9: evaluating the code at the failing input
`width = 2, height = 2, thread_count = 5`: `area_size = 4 / 5 = 0` and
`chunks_mut(0)` panics (modelled as `none`); the call is neither
rejected nor clamped. -/
theorem generate_degenerate_thread_count_fails :
    generate (fun _ _ => 0) 2 2 5 0 0 (fun _ _ => 0) = none := by
  norm_num [generate]

/-- C10: whenever `get_terrain_kind` on the default gradient returns a
kind, the kind is a real band, never the `Undefined` sentinel: the
found position indexes the 8-entry default limits table and
`TerrainKind::from` maps every index below 8 to a real band. -/
theorem get_terrain_kind_default_never_undefined (x : ℚ) (k : TerrainKind)
    (h : Gradient.default.get_terrain_kind x = some k) :
    k ≠ TerrainKind.Undefined := by
  unfold Gradient.get_terrain_kind at h
  rw [Option.map_eq_some'] at h
  obtain ⟨i, hi, hk⟩ := h
  have hlen := positionIdx_lt_length _ _ _ hi
  have h8 : Gradient.default.terrain_limits.length = 8 := rfl
  rw [h8] at hlen
  subst hk
  interval_cases i <;> decide

/-- C10 witness: the theorem applied at height `0.5`, which classifies
to `Water`. -/
theorem get_terrain_kind_default_never_undefined_witness :
    Gradient.default.get_terrain_kind 0.5 = some TerrainKind.Water ∧
    TerrainKind.Water ≠ TerrainKind.Undefined := by
  have h : Gradient.default.get_terrain_kind 0.5 = some TerrainKind.Water := by
    norm_num [Gradient.get_terrain_kind, Gradient.default, Gradient.new, positionIdx,
      TerrainKind.fromNat]
  exact ⟨h, get_terrain_kind_default_never_undefined 0.5 TerrainKind.Water h⟩

end ImageTerrainGen
